import Mathlib

/-!
# Verification of the hook-lab token reconciliation and cost engine

Shallow embedding of the two analyzers in this repository:
`analyze-session.py` (namespace `AnalyzeSession`) and `analyze-hooks.py`
(namespace `AnalyzeHooks`).  Machine integers in the source are Python
arbitrary-precision ints, embedded as `Nat`; the floating-point dollar
amounts are embedded as `ℚ` (the pricing rates are exact decimals).

A parsed log line (the Python dict produced by `json.loads`) is embedded
at the level of the fields the analyzers consult: `type`, `requestId`,
`timestamp`, and the `message` object with `model`, `usage` and `content`.
A line that fails `json.loads` is `none` in the input `List (Option Entry)`;
the `try/except/continue` reader loop is `readEntries`.
-/

namespace HookLab

/-- The `usage` object of an assistant message.  Each field mirrors
`usage.get(key, 0)`: absent keys default to 0. -/
structure Usage where
  input_tokens : Nat := 0
  output_tokens : Nat := 0
  cache_creation_input_tokens : Nat := 0
  cache_read_input_tokens : Nat := 0
deriving DecidableEq, Repr

/-- One typed block of an assistant message `content` list.
`tool_use` carries `item.get("name", "unknown")`; blocks of any other
type are ignored by both analyzers. -/
inductive ContentBlock where
  | thinking : ContentBlock
  | tool_use (name : String) : ContentBlock
  | other : ContentBlock
deriving DecidableEq, Repr

/-- `message.content`: either a plain string (user prompts), a list of
typed blocks (assistant messages), or some other JSON value.  The Python
default `msg.get("content", "")` is the empty string. -/
inductive MsgContent where
  | str (s : String) : MsgContent
  | blocks (bs : List ContentBlock) : MsgContent
  | other : MsgContent
deriving DecidableEq, Repr

/-- The `message` object.  `model` mirrors `msg.get("model", "unknown")`;
`usage` is `some u` exactly when the record `usage` dict is truthy
(present and non-empty), with `u` holding the extracted counters. -/
structure Message where
  model : String := "unknown"
  usage : Option Usage := none
  content : MsgContent := .str ""
deriving DecidableEq, Repr

/-- One parsed log line.  `type` is `entry.get("type")`; `requestId` is
`entry.get("requestId", "")`; `timestamp` is `entry.get("timestamp")`.
`msgIsDict` records whether the record `message` value is a dict
(`entry.get("message", ...)` yields a dict unless the record stores a
non-dict under `message`); the user-prompt branches of both analyzers
test `isinstance(msg, dict)`. -/
structure Entry where
  type : Option String := none
  requestId : String := ""
  timestamp : Option String := none
  message : Message := {}
  msgIsDict : Bool := true
deriving DecidableEq, Repr

/-- The `json.loads` loop: each line parsed independently, failing lines
(`none`) silently dropped, order preserved. -/
def readEntries : List (Option Entry) → List Entry
  | [] => []
  | some e :: rest => e :: readEntries rest
  | none :: rest => readEntries rest

/-- Lookup in an association list (first match), the read half of a
Python dict keyed by strings. -/
def getA {α : Type} : List (String × α) → String → Option α
  | [], _ => none
  | (k, v) :: rest, k0 => if k = k0 then some v else getA rest k0

/-- Store in an association list: replace the first binding of the key,
or append a fresh binding — the write half of a Python dict (insertion
order preserved, as in CPython). -/
def setA {α : Type} : List (String × α) → String → α → List (String × α)
  | [], k0, v0 => [(k0, v0)]
  | (k, v) :: rest, k0, v0 =>
      if k = k0 then (k0, v0) :: rest else (k, v) :: setA rest k0 v0

/-- Sum of `f` over the values of an association list. -/
def sumA {α : Type} (f : α → Nat) : List (String × α) → Nat
  | [] => 0
  | (_, v) :: rest => f v + sumA f rest

/-- `needle` occurs at the head of `hay` (character lists). -/
def startsWith : List Char → List Char → Bool
  | [], _ => true
  | _ :: _, [] => false
  | a :: as, b :: bs => a == b && startsWith as bs

/-- The Python expression `needle in hay` on strings, over character lists: some
suffix of `hay` starts with `needle`. -/
def containsStr (needle : List Char) : List Char → Bool
  | [] => startsWith needle []
  | c :: cs => startsWith needle (c :: cs) || containsStr needle cs

end HookLab

namespace AnalyzeSession

open HookLab

/-- Accumulated result of `parse_session` in `analyze-session.py`
(the fields the token-reconciliation core writes; the unused `uuid_map`
and the raw `messages` list are not modelled). -/
structure SessionResult where
  entry_count : Nat := 0
  totals : Usage := {}
  by_request : List (String × Usage) := []
  user_prompts : List String := []
  api_calls : Nat := 0
  seen_request_ids : List String := []
  tool_uses : List String := []
  thinking_blocks : Nat := 0
deriving DecidableEq, Repr

/-- One key of the reconciliation update (`analyze-session.py` lines
152–157): given the running total, the stored per-request value and the
snapshot value, return the new `(total, stored)` pair.  Only a strictly
larger snapshot changes anything. -/
def stepKey (total existing val : Nat) : Nat × Nat :=
  if val > existing then (total + (val - existing), val) else (total, existing)

/-- The four-key loop `for key in [...]` over the usage counters: new
totals and new stored `req_data`. -/
def foldRequestUsage (totals req u : Usage) : Usage × Usage :=
  let i := stepKey totals.input_tokens req.input_tokens u.input_tokens
  let o := stepKey totals.output_tokens req.output_tokens u.output_tokens
  let c := stepKey totals.cache_creation_input_tokens
             req.cache_creation_input_tokens u.cache_creation_input_tokens
  let r := stepKey totals.cache_read_input_tokens
             req.cache_read_input_tokens u.cache_read_input_tokens
  (⟨i.1, o.1, c.1, r.1⟩, ⟨i.2, o.2, c.2, r.2⟩)

/-- The `usage`-extraction block of the entry loop (`analyze-session.py`
lines 147–157), acting on the `(totals, by_request)` part of the state:
fetch the per-request accumulator (zeros on first use), run the four-key
loop, store the result back. -/
def updateUsage (tb : Usage × List (String × Usage)) (request_id : String)
    (u : Usage) : Usage × List (String × Usage) :=
  let req_data := (getA tb.2 request_id).getD {}
  let p := foldRequestUsage tb.1 req_data u
  (p.1, setA tb.2 request_id p.2)

/-- The content-type loop over an assistant message blocks
(`analyze-session.py` lines 159–169). -/
def processBlocks (st : SessionResult) (bs : List ContentBlock) : SessionResult :=
  bs.foldl (fun s b =>
    match b with
    | .thinking => { s with thinking_blocks := s.thinking_blocks + 1 }
    | .tool_use name => { s with tool_uses := s.tool_uses ++ [name] }
    | .other => s) st

/-- Body of the `for entry in entries` loop of `parse_session`. -/
def processEntry (st : SessionResult) (entry : Entry) : SessionResult :=
  let st :=
    if entry.type = some "user" then
      if entry.msgIsDict then
        match entry.message.content with
        | .str c => if c ≠ "" then
            { st with user_prompts := st.user_prompts ++ [c.take 100] }
          else st
        | _ => st
      else st
    else st
  if entry.type = some "assistant" then
    let request_id := entry.requestId
    let st :=
      if request_id ≠ "" ∧ request_id ∉ st.seen_request_ids then
        { st with seen_request_ids := st.seen_request_ids ++ [request_id],
                  api_calls := st.api_calls + 1 }
      else st
    let st :=
      match entry.message.usage with
      | some u =>
          let p := updateUsage (st.totals, st.by_request) request_id u
          { st with totals := p.1, by_request := p.2 }
      | none => st
    match entry.message.content with
    | .blocks bs => processBlocks st bs
    | _ => st
  else st

/-- `parse_session` of `analyze-session.py`: read the lines, then fold
the entry loop; `entry_count` is `len(entries)`. -/
def parse_session (lines : List (Option Entry)) : SessionResult :=
  let entries := readEntries lines
  entries.foldl processEntry { entry_count := entries.length }

/-- The cost breakdown returned by `calculate_cost` in
`analyze-session.py`. -/
structure CostBreakdown where
  input_cost : ℚ
  output_cost : ℚ
  cache_read_cost : ℚ
  cache_create_cost : ℚ
  total_cost : ℚ
deriving DecidableEq, Repr

/-- `calculate_cost` of `analyze-session.py`: fixed Opus pricing. -/
def calculate_cost (totals : Usage) : CostBreakdown :=
  let input_rate : ℚ := 15.0 / 1000000
  let output_rate : ℚ := 75.0 / 1000000
  let cache_read_rate : ℚ := 1.50 / 1000000
  let cache_create_rate : ℚ := 18.75 / 1000000
  { input_cost := totals.input_tokens * input_rate
    output_cost := totals.output_tokens * output_rate
    cache_read_cost := totals.cache_read_input_tokens * cache_read_rate
    cache_create_cost := totals.cache_creation_input_tokens * cache_create_rate
    total_cost :=
      totals.input_tokens * input_rate +
      totals.output_tokens * output_rate +
      totals.cache_read_input_tokens * cache_read_rate +
      totals.cache_creation_input_tokens * cache_create_rate }

end AnalyzeSession

namespace AnalyzeHooks

open HookLab

/-- Value of the `seen_request_ids` dict in `analyze-hooks.py`
`parse_session`: the running per-request maxima plus the model reported
by the first snapshot. -/
structure ReqData where
  model : String
  input_tokens : Nat := 0
  output_tokens : Nat := 0
  cache_creation : Nat := 0
  cache_read : Nat := 0
deriving DecidableEq, Repr

/-- The per-snapshot update of `seen_request_ids` (`analyze-hooks.py`
lines 121–134): fetch the current record (zeros and this snapshot
model on first sight), take component-wise maxima, store back. -/
def updateSeen (seen : List (String × ReqData)) (request_id model : String)
    (usage : Usage) : List (String × ReqData) :=
  let current := (getA seen request_id).getD { model := model }
  setA seen request_id
    { current with
      input_tokens := max current.input_tokens usage.input_tokens
      output_tokens := max current.output_tokens usage.output_tokens
      cache_creation := max current.cache_creation usage.cache_creation_input_tokens
      cache_read := max current.cache_read usage.cache_read_input_tokens }

/-- State accumulated by the entry loop of `analyze-hooks.py`
`parse_session` (the raw `api_calls_by_model` lists are not modelled). -/
structure HooksScan where
  user_prompts : List (String × Option String) := []
  seen_request_ids : List (String × ReqData) := []
  tool_uses : List String := []
deriving DecidableEq, Repr

/-- The tool-use loop over an assistant message blocks
(`analyze-hooks.py` lines 136–141). -/
def processBlocks (st : HooksScan) (bs : List ContentBlock) : HooksScan :=
  bs.foldl (fun s b =>
    match b with
    | .tool_use name => { s with tool_uses := s.tool_uses ++ [name] }
    | _ => s) st

/-- Body of the `for entry in entries` loop of `analyze-hooks.py`
`parse_session`.  Note `if usage and request_id` — a snapshot with an
empty `requestId` is skipped entirely. -/
def processEntry (st : HooksScan) (entry : Entry) : HooksScan :=
  let st :=
    if entry.type = some "user" then
      if entry.msgIsDict then
        match entry.message.content with
        | .str c => if c ≠ "" then
            { st with user_prompts :=
                st.user_prompts ++ [(c.take 200, entry.timestamp)] }
          else st
        | _ => st
      else st
    else st
  if entry.type = some "assistant" then
    let st :=
      match entry.message.usage with
      | some u =>
          if entry.requestId ≠ "" then
            { st with seen_request_ids :=
                (updateSeen st.seen_request_ids entry.requestId
                  entry.message.model u) }
          else st
      | none => st
    match entry.message.content with
    | .blocks bs => processBlocks st bs
    | _ => st
  else st

/-- The main-agent accumulator (`result["main_agent"]`). -/
structure MainAgent where
  api_calls : Nat := 0
  input_tokens : Nat := 0
  output_tokens : Nat := 0
  cache_creation : Nat := 0
  cache_read : Nat := 0
  models : List (String × Nat) := []
deriving DecidableEq, Repr

/-- The prompt-hook accumulator (`result["hooks"]["prompt"]`). -/
structure PromptHooks where
  count : Nat := 0
  input_tokens : Nat := 0
  output_tokens : Nat := 0
deriving DecidableEq, Repr

/-- The classification heuristic (`analyze-hooks.py` line 149):
`is_hook = "haiku" in model.lower()`. -/
def is_hook (model : String) : Bool :=
  containsStr "haiku".data (model.data.map Char.toLower)

/-- The two cost categories of the spec classifier. -/
inductive Category where
  | lightweight : Category
  | primary : Category
deriving DecidableEq, Repr

/-- The classifier category for a model string: `lightweight` when the
`is_hook` heuristic fires, `primary` otherwise (the branch at
`analyze-hooks.py` lines 153–165). -/
def classify (model : String) : Category :=
  if is_hook model then .lightweight else .primary

/-- The categorisation loop (`analyze-hooks.py` lines 144–165): fold
over the reconciled calls, routing haiku-model calls to the prompt-hook
bucket (input counted as `input_tokens + cache_read`, cache creation
dropped) and all others to the main-agent bucket. -/
def catStep (acc : MainAgent × PromptHooks) (kv : String × ReqData) :
    MainAgent × PromptHooks :=
  let data := kv.2
  if is_hook data.model then
    (acc.1,
     { acc.2 with
       count := acc.2.count + 1
       input_tokens := acc.2.input_tokens + data.input_tokens + data.cache_read
       output_tokens := acc.2.output_tokens + data.output_tokens })
  else
    ({ acc.1 with
       api_calls := acc.1.api_calls + 1
       input_tokens := acc.1.input_tokens + data.input_tokens
       output_tokens := acc.1.output_tokens + data.output_tokens
       cache_creation := acc.1.cache_creation + data.cache_creation
       cache_read := acc.1.cache_read + data.cache_read
       models := setA acc.1.models data.model
         ((getA acc.1.models data.model).getD 0 + 1) },
     acc.2)

/-- The fold over `seen_request_ids.items()`. -/
def categorizeCalls (seen : List (String × ReqData)) :
    MainAgent × PromptHooks :=
  seen.foldl catStep ({}, {})

/-- Result of `parse_session` in `analyze-hooks.py` (fields the claims
touch). -/
structure HooksResult where
  entry_count : Nat := 0
  user_prompts : List (String × Option String) := []
  seen_request_ids : List (String × ReqData) := []
  tool_uses : List String := []
  main_agent : MainAgent := {}
  hooks_prompt : PromptHooks := {}
deriving DecidableEq, Repr

/-- `parse_session` of `analyze-hooks.py`: read lines, scan entries,
then categorize the reconciled calls. -/
def parse_session (lines : List (Option Entry)) : HooksResult :=
  let entries := readEntries lines
  let scan := entries.foldl processEntry {}
  let cat := categorizeCalls scan.seen_request_ids
  { entry_count := entries.length
    user_prompts := scan.user_prompts
    seen_request_ids := scan.seen_request_ids
    tool_uses := scan.tool_uses
    main_agent := cat.1
    hooks_prompt := cat.2 }

/-- A row of the pricing table in `calculate_cost`
(`analyze-hooks.py` lines 173–177), currency units per 1M tokens. -/
structure Rates where
  input : ℚ
  output : ℚ
  cache_read : ℚ
  cache_create : ℚ
deriving DecidableEq, Repr

/-- The `"opus"` row of the pricing dict. -/
def opusRates : Rates := { input := 15.0, output := 75.0, cache_read := 1.50, cache_create := 18.75 }

/-- The `"sonnet"` row of the pricing dict. -/
def sonnetRates : Rates := { input := 3.0, output := 15.0, cache_read := 0.30, cache_create := 3.75 }

/-- The `"haiku"` row of the pricing dict. -/
def haikuRates : Rates := { input := 0.25, output := 1.25, cache_read := 0.025, cache_create := 0.3125 }

/-- Lookup in the pricing dict (`pricing.get(model, ...)` without the
default). -/
def pricing (model : String) : Option Rates :=
  if model = "opus" then some opusRates
  else if model = "sonnet" then some sonnetRates
  else if model = "haiku" then some haikuRates
  else none

/-- The `tokens` dict passed to `calculate_cost`; each field mirrors
`tokens.get(key, 0)`. -/
structure CostTokens where
  input_tokens : Nat := 0
  output_tokens : Nat := 0
  cache_read : Nat := 0
  cache_creation : Nat := 0
deriving DecidableEq, Repr

/-- `calculate_cost` of `analyze-hooks.py`:
`p = pricing.get(model, pricing["opus"])`, then the four `cost +=`
lines.  In the source `model` defaults to `"opus"`. -/
def calculate_cost (tokens : CostTokens) (model : String) : ℚ :=
  let p := (pricing model).getD opusRates
  tokens.input_tokens * p.input / 1000000 +
  tokens.output_tokens * p.output / 1000000 +
  tokens.cache_read * p.cache_read / 1000000 +
  tokens.cache_creation * p.cache_create / 1000000

end AnalyzeHooks

namespace HookLab

/-- A minimal assistant record carrying one usage snapshot. -/
def mkAsst (id : String) (u : Usage) : Entry :=
  { type := some "assistant", requestId := id,
    message := { usage := some u } }

/-- A log consisting of one assistant record per value: the `callId`
receives the `inputTokens` snapshot sequence `vals` (other counters 0). -/
def inputSnaps (id : String) (vals : List Nat) : List (Option Entry) :=
  vals.map (fun v => some (mkAsst id { input_tokens := v }))

/-- A minimal user record with plain-string content. -/
def userEntry (s : String) : Entry :=
  { type := some "user", message := { content := .str s } }

/-- The prompt text a user-kind record contributes, if any: its message
must be a dict whose `content` is a non-empty plain string. -/
def userText (e : Entry) : Option String :=
  if e.type = some "user" ∧ e.msgIsDict then
    match e.message.content with
    | .str c => if c = "" then none else some c
    | _ => none
  else none

/-- All prompt texts of a record list, in order. -/
def userTexts (entries : List Entry) : List String :=
  entries.filterMap userText

/-- The usage snapshot an entry feeds to the session analyzer
reconciler: assistant kind with a truthy usage dict. -/
def assistUsage (e : Entry) : Option (String × Usage) :=
  if e.type = some "assistant" then
    e.message.usage.map (fun u => (e.requestId, u))
  else none

/-- The snapshot an entry feeds to the hook analyzer reconciler:
assistant kind, truthy usage, and a non-empty `requestId`. -/
def hookSnapshot (e : Entry) : Option (String × String × Usage) :=
  if e.type = some "assistant" ∧ e.requestId ≠ "" then
    e.message.usage.map (fun u => (e.requestId, e.message.model, u))
  else none

/-- The four counters of a hook-analyzer reconciled call, as a `Usage`. -/
def projReq (d : AnalyzeHooks.ReqData) : Usage :=
  { input_tokens := d.input_tokens
    output_tokens := d.output_tokens
    cache_creation_input_tokens := d.cache_creation
    cache_read_input_tokens := d.cache_read }

/-- Component-wise order on the four counters. -/
def usageLe (a b : Usage) : Prop :=
  a.input_tokens ≤ b.input_tokens ∧
  a.output_tokens ≤ b.output_tokens ∧
  a.cache_creation_input_tokens ≤ b.cache_creation_input_tokens ∧
  a.cache_read_input_tokens ≤ b.cache_read_input_tokens

/-- A small concrete log: call `a` streamed twice, call `b` once, one
malformed line, one user prompt. -/
def c2demoLines : List (Option Entry) :=
  [some (mkAsst "a" { input_tokens := 3, output_tokens := 1, cache_read_input_tokens := 2 }),
   some (mkAsst "a" { input_tokens := 5, output_tokens := 1, cache_creation_input_tokens := 1 }),
   none,
   some (mkAsst "b" { input_tokens := 2 }),
   some (userEntry "hi")]

end HookLab

namespace HookLab

theorem getA_setA_self {α : Type} (m : List (String × α)) (k : String) (v : α) :
    getA (setA m k v) k = some v := by
  induction m with
  | nil => simp [setA, getA]
  | cons kv rest ih =>
    obtain ⟨k1, v1⟩ := kv
    by_cases h : k1 = k <;> simp [setA, getA, h, ih]

theorem getA_setA_ne {α : Type} (m : List (String × α)) {k k0 : String}
    (v : α) (h : k0 ≠ k) : getA (setA m k v) k0 = getA m k0 := by
  have h' : ¬ k = k0 := fun hh => h hh.symm
  induction m with
  | nil => simp [setA, getA, h']
  | cons kv rest ih =>
    obtain ⟨k1, v1⟩ := kv
    by_cases h1 : k1 = k
    · subst h1
      simp [setA, getA, h']
    · by_cases h0 : k1 = k0 <;> simp [setA, getA, h1, h0, h, h', ih]

theorem setA_getA_self {α : Type} (m : List (String × α)) (k : String)
    (v : α) (h : getA m k = some v) : setA m k v = m := by
  induction m with
  | nil => simp [getA] at h
  | cons kv rest ih =>
    obtain ⟨k1, v1⟩ := kv
    by_cases h1 : k1 = k
    · subst h1
      simp [getA] at h
      simp [setA, h]
    · simp [getA, h1] at h
      simp [setA, h1, ih h]

theorem sumA_setA {α : Type} (f : α → Nat) (m : List (String × α))
    (k : String) (v : α) :
    sumA f (setA m k v) + ((getA m k).map f).getD 0 = sumA f m + f v := by
  induction m with
  | nil => simp [setA, getA, sumA]
  | cons kv rest ih =>
    obtain ⟨k1, v1⟩ := kv
    by_cases h1 : k1 = k
    · subst h1
      simp [setA, getA, sumA]
      omega
    · simp [setA, getA, sumA, h1]
      omega

theorem getA_map {α β : Type} (g : α → β) (m : List (String × α)) (k : String) :
    getA (m.map (fun kv => (kv.1, g kv.2))) k = (getA m k).map g := by
  induction m with
  | nil => simp [getA]
  | cons kv rest ih =>
    obtain ⟨k1, v1⟩ := kv
    by_cases h1 : k1 = k <;> simp [getA, h1, ih]

theorem setA_map {α β : Type} (g : α → β) (m : List (String × α))
    (k : String) (v : α) :
    setA (m.map (fun kv => (kv.1, g kv.2))) k (g v)
      = (setA m k v).map (fun kv => (kv.1, g kv.2)) := by
  induction m with
  | nil => simp [setA]
  | cons kv rest ih =>
    obtain ⟨k1, v1⟩ := kv
    by_cases h1 : k1 = k <;> simp [setA, h1, ih]

theorem sumA_map {α β : Type} (g : α → β) (f : β → Nat) (m : List (String × α)) :
    sumA f (m.map (fun kv => (kv.1, g kv.2))) = sumA (fun x => f (g x)) m := by
  induction m with
  | nil => simp [sumA]
  | cons kv rest ih => simp [sumA, ih]

theorem startsWith_iff (n l : List Char) :
    startsWith n l = true ↔ ∃ t, l = n ++ t := by
  induction n generalizing l with
  | nil => simp [startsWith]
  | cons a as ih =>
    cases l with
    | nil => simp [startsWith]
    | cons b bs =>
      simp only [startsWith, Bool.and_eq_true, beq_iff_eq, ih,
        List.cons_append, List.cons.injEq]
      constructor
      · rintro ⟨rfl, t, rfl⟩
        exact ⟨t, rfl, rfl⟩
      · rintro ⟨t, h1, h2⟩
        exact ⟨h1.symm, t, h2⟩

theorem containsStr_iff (n l : List Char) :
    containsStr n l = true ↔ ∃ p s, l = p ++ n ++ s := by
  induction l with
  | nil =>
    simp only [containsStr, startsWith_iff]
    constructor
    · rintro ⟨t, ht⟩
      exact ⟨[], t, ht⟩
    · rintro ⟨p, s, h⟩
      cases p with
      | nil => exact ⟨s, by simpa using h⟩
      | cons p0 ps => simp at h
  | cons c cs ih =>
    simp only [containsStr, Bool.or_eq_true, startsWith_iff, ih]
    constructor
    · rintro (⟨t, ht⟩ | ⟨p, s, hs⟩)
      · exact ⟨[], t, by simp [ht]⟩
      · exact ⟨c :: p, s, by simp [hs]⟩
    · rintro ⟨p, s, h⟩
      cases p with
      | nil =>
        exact Or.inl ⟨s, by simpa using h⟩
      | cons p0 ps =>
        simp only [List.cons_append, List.cons.injEq] at h
        exact Or.inr ⟨ps, s, h.2⟩

theorem readEntries_eq_filterMap (lines : List (Option Entry)) :
    readEntries lines = lines.filterMap id := by
  induction lines with
  | nil => simp [readEntries]
  | cons l rest ih => cases l <;> simp [readEntries, ih]

theorem readEntries_append (a b : List (Option Entry)) :
    readEntries (a ++ b) = readEntries a ++ readEntries b := by
  simp [readEntries_eq_filterMap]

theorem readEntries_map_some (entries : List Entry) :
    readEntries (entries.map some) = entries := by
  induction entries with
  | nil => simp [readEntries]
  | cons e rest ih => simp [readEntries, ih]

end HookLab

namespace AnalyzeSession

open HookLab

theorem stepKey_fst_add (t r v : Nat) :
    (stepKey t r v).1 + r = t + max r v := by
  by_cases h : v > r <;> simp [stepKey, h] <;> omega

theorem stepKey_snd (t r v : Nat) : (stepKey t r v).2 = max r v := by
  by_cases h : v > r <;> simp [stepKey, h] <;> omega

theorem stepKey_fst_ge (t r v : Nat) : t ≤ (stepKey t r v).1 := by
  have h := stepKey_fst_add t r v
  omega

theorem stepKey_zero (v : Nat) : stepKey 0 0 v = (v, v) := by
  by_cases h : v > 0
  · simp [stepKey, h]
  · simp [stepKey, h, Prod.ext_iff]
    omega

theorem stepKey_self (r v : Nat) : stepKey r r v = (max r v, max r v) := by
  by_cases h : v > r <;> simp [stepKey, h, Prod.ext_iff] <;> omega

end AnalyzeSession

namespace AnalyzeSession

open HookLab

theorem processBlocks_fields (bs : List ContentBlock) (st : SessionResult) :
    (processBlocks st bs).user_prompts = st.user_prompts ∧
    (processBlocks st bs).totals = st.totals ∧
    (processBlocks st bs).by_request = st.by_request ∧
    (processBlocks st bs).api_calls = st.api_calls ∧
    (processBlocks st bs).seen_request_ids = st.seen_request_ids ∧
    (processBlocks st bs).entry_count = st.entry_count := by
  induction bs generalizing st with
  | nil => simp [processBlocks]
  | cons b rest ih =>
    cases b with
    | thinking =>
      simpa [processBlocks] using
        ih { st with thinking_blocks := st.thinking_blocks + 1 }
    | tool_use name =>
      simpa [processBlocks] using ih { st with tool_uses := st.tool_uses ++ [name] }
    | other => simpa [processBlocks] using ih st

theorem processBlocks_user_prompts (bs : List ContentBlock) (st : SessionResult) :
    (processBlocks st bs).user_prompts = st.user_prompts :=
  (processBlocks_fields bs st).1

theorem processBlocks_totals (bs : List ContentBlock) (st : SessionResult) :
    (processBlocks st bs).totals = st.totals :=
  (processBlocks_fields bs st).2.1

theorem processBlocks_by_request (bs : List ContentBlock) (st : SessionResult) :
    (processBlocks st bs).by_request = st.by_request :=
  (processBlocks_fields bs st).2.2.1

theorem processBlocks_entry_count (bs : List ContentBlock) (st : SessionResult) :
    (processBlocks st bs).entry_count = st.entry_count :=
  (processBlocks_fields bs st).2.2.2.2.2

theorem processEntry_user_prompts (st : SessionResult) (e : Entry) :
    (processEntry st e).user_prompts
      = st.user_prompts ++ (userText e).elim [] (fun c => [c.take 100]) := by
  by_cases hu : e.type = some "user"
  · have ha : ¬ e.type = some "assistant" := by simp [hu]
    unfold processEntry userText
    simp only [hu, ha, if_true, true_and, if_false, ite_false]
    cases hd : e.msgIsDict
    · simp
    · cases hc : e.message.content with
      | str c => by_cases hcs : c = "" <;> simp [hcs]
      | blocks bs => simp
      | other => simp
  · have h0 : userText e = none := by simp [userText, hu]
    rw [h0]
    unfold processEntry
    simp only [hu, if_false, ite_false, Option.elim_none, List.append_nil]
    by_cases ha : e.type = some "assistant"
    · simp only [ha, if_true, ite_true]
      cases hus : e.message.usage <;>
        cases hc : e.message.content <;>
          split_ifs <;>
            simp [processBlocks_user_prompts]
    · simp [ha]

theorem processEntry_usage_state (st : SessionResult) (e : Entry) :
    ((processEntry st e).totals, (processEntry st e).by_request)
      = (assistUsage e).elim (st.totals, st.by_request)
          (fun p => updateUsage (st.totals, st.by_request) p.1 p.2) := by
  by_cases ha : e.type = some "assistant"
  · have hu : ¬ e.type = some "user" := by simp [ha]
    unfold processEntry assistUsage
    cases hus : e.message.usage with
    | none =>
      cases hc : e.message.content <;> split_ifs <;>
        simp_all [processBlocks_totals, processBlocks_by_request,
          apply_ite SessionResult.totals, apply_ite SessionResult.by_request]
    | some u =>
      cases hc : e.message.content <;> split_ifs <;>
        simp_all [processBlocks_totals, processBlocks_by_request,
          apply_ite SessionResult.totals, apply_ite SessionResult.by_request]
  · have h0 : assistUsage e = none := by simp [assistUsage, ha]
    rw [h0]
    unfold processEntry
    simp only [ha, if_false, ite_false, Option.elim_none]
    by_cases hu : e.type = some "user"
    · simp only [hu, if_true, ite_true]
      cases hd : e.msgIsDict
      · simp
      · cases hc : e.message.content with
        | str c => by_cases hcs : c = "" <;> simp [hcs]
        | blocks bs => simp
        | other => simp
    · simp [hu]

end AnalyzeSession

namespace AnalyzeHooks

open HookLab

theorem hooksBlocks_fields (bs : List ContentBlock) (st : HooksScan) :
    (processBlocks st bs).user_prompts = st.user_prompts ∧
    (processBlocks st bs).seen_request_ids = st.seen_request_ids := by
  induction bs generalizing st with
  | nil => simp [processBlocks]
  | cons b rest ih =>
    cases b with
    | thinking => simpa [processBlocks] using ih st
    | tool_use name =>
      simpa [processBlocks] using ih { st with tool_uses := st.tool_uses ++ [name] }
    | other => simpa [processBlocks] using ih st

theorem hooksBlocks_user_prompts (bs : List ContentBlock) (st : HooksScan) :
    (processBlocks st bs).user_prompts = st.user_prompts :=
  (hooksBlocks_fields bs st).1

theorem processBlocks_seen (bs : List ContentBlock) (st : HooksScan) :
    (processBlocks st bs).seen_request_ids = st.seen_request_ids :=
  (hooksBlocks_fields bs st).2

theorem hooksEntry_user_prompts (st : HooksScan) (e : Entry) :
    (processEntry st e).user_prompts
      = st.user_prompts
          ++ (userText e).elim [] (fun c => [(c.take 200, e.timestamp)]) := by
  by_cases hu : e.type = some "user"
  · have ha : ¬ e.type = some "assistant" := by simp [hu]
    unfold processEntry userText
    cases hd : e.msgIsDict
    · simp_all
    · cases hc : e.message.content with
      | str c => by_cases hcs : c = "" <;> simp_all
      | blocks bs => simp_all
      | other => simp_all
  · have h0 : userText e = none := by simp [userText, hu]
    rw [h0]
    unfold processEntry
    by_cases ha : e.type = some "assistant"
    · cases hus : e.message.usage <;>
        cases hc : e.message.content <;>
          split_ifs <;>
            simp_all [hooksBlocks_user_prompts,
              apply_ite HooksScan.user_prompts]
    · simp_all

theorem processEntry_seen (st : HooksScan) (e : Entry) :
    (processEntry st e).seen_request_ids
      = (hookSnapshot e).elim st.seen_request_ids
          (fun p => updateSeen st.seen_request_ids p.1 p.2.1 p.2.2) := by
  by_cases ha : e.type = some "assistant"
  · have hu : ¬ e.type = some "user" := by simp [ha]
    unfold processEntry hookSnapshot
    cases hus : e.message.usage with
    | none =>
      cases hc : e.message.content <;> split_ifs <;>
        simp_all [processBlocks_seen, apply_ite HooksScan.seen_request_ids]
    | some u =>
      cases hc : e.message.content <;> split_ifs <;>
        simp_all [processBlocks_seen, apply_ite HooksScan.seen_request_ids]
  · have h0 : hookSnapshot e = none := by simp [hookSnapshot, ha]
    rw [h0]
    unfold processEntry
    by_cases hu : e.type = some "user"
    · cases hd : e.msgIsDict
      · simp_all
      · cases hc : e.message.content with
        | str c => by_cases hcs : c = "" <;> simp_all
        | blocks bs => simp_all
        | other => simp_all
    · simp_all

end AnalyzeHooks

namespace HookLab

theorem userText_mkAsst (id : String) (u : Usage) : userText (mkAsst id u) = none := by
  simp [userText, mkAsst]

theorem assistUsage_mkAsst (id : String) (u : Usage) :
    assistUsage (mkAsst id u) = some (id, u) := by
  simp [assistUsage, mkAsst]

theorem userText_userEntry (s : String) (h : s ≠ "") :
    userText (userEntry s) = some s := by
  simp [userText, userEntry, h]

theorem assistUsage_eq_some (e : Entry) (id : String) (u : Usage)
    (h : assistUsage e = some (id, u)) :
    e.type = some "assistant" ∧ e.message.usage = some u ∧ id = e.requestId := by
  unfold assistUsage at h
  by_cases ha : e.type = some "assistant"
  · rw [if_pos ha] at h
    cases hus : e.message.usage with
    | none => rw [hus] at h; simp at h
    | some u0 =>
      rw [hus] at h
      simp only [Option.map_some', Option.some.injEq, Prod.mk.injEq] at h
      exact ⟨ha, by rw [h.2], h.1.symm⟩
  · rw [if_neg ha] at h
    simp at h

theorem assistUsage_none_hookSnapshot (e : Entry) (h : assistUsage e = none) :
    hookSnapshot e = none := by
  unfold assistUsage at h
  unfold hookSnapshot
  by_cases ha : e.type = some "assistant"
  · simp only [ha, if_true] at h
    cases hus : e.message.usage with
    | none => simp [hus]
    | some u0 => rw [hus] at h; simp at h
  · simp [ha]

theorem assistUsage_some_hookSnapshot (e : Entry) (id : String) (u : Usage)
    (h : assistUsage e = some (id, u)) (hid : id ≠ "") :
    hookSnapshot e = some (id, e.message.model, u) := by
  obtain ⟨ha, hus, hr⟩ := assistUsage_eq_some e id u h
  rw [hr] at hid ⊢
  simp [hookSnapshot, ha, hus, hid]

end HookLab

namespace AnalyzeSession

open HookLab

theorem scan_user_prompts (entries : List Entry) (st : SessionResult) :
    (entries.foldl processEntry st).user_prompts
      = st.user_prompts ++ (userTexts entries).map (fun c => c.take 100) := by
  induction entries generalizing st with
  | nil => simp [userTexts]
  | cons e rest ih =>
    simp only [List.foldl_cons]
    rw [ih, processEntry_user_prompts]
    cases ht : userText e <;>
      simp [userTexts, List.filterMap_cons, ht]

theorem session_snap_step (id : String) (v : Nat) (st : SessionResult) :
    ((getA (processEntry st (mkAsst id { input_tokens := v })).by_request id).getD {}).input_tokens
      = max (((getA st.by_request id).getD {}).input_tokens) v := by
  have hs := processEntry_usage_state st (mkAsst id { input_tokens := v })
  rw [assistUsage_mkAsst] at hs
  simp only [Option.elim_some] at hs
  have h2 : (processEntry st (mkAsst id { input_tokens := v })).by_request
      = (updateUsage (st.totals, st.by_request) id { input_tokens := v }).2 := by
    have := congrArg Prod.snd hs
    simpa using this
  rw [h2]
  unfold updateUsage
  simp only
  rw [getA_setA_self]
  simp [foldRequestUsage, stepKey_snd]

theorem session_snaps_max (id : String) (vals : List Nat) (st : SessionResult) :
    ((getA ((vals.map (fun v => mkAsst id { input_tokens := v })).foldl
        processEntry st).by_request id).getD {}).input_tokens
      = vals.foldl max (((getA st.by_request id).getD {}).input_tokens) := by
  induction vals generalizing st with
  | nil => simp
  | cons v rest ih =>
    simp only [List.map_cons, List.foldl_cons]
    rw [ih, session_snap_step]

end AnalyzeSession

namespace AnalyzeHooks

open HookLab

theorem scan_user_prompts_fst (entries : List Entry) (st : HooksScan) :
    (entries.foldl processEntry st).user_prompts.map Prod.fst
      = st.user_prompts.map Prod.fst ++ (userTexts entries).map (fun c => c.take 200) := by
  induction entries generalizing st with
  | nil => simp [userTexts]
  | cons e rest ih =>
    simp only [List.foldl_cons]
    rw [ih, hooksEntry_user_prompts]
    cases ht : userText e <;>
      simp [userTexts, List.filterMap_cons, ht]

theorem hooks_snap_step (id : String) (hid : id ≠ "") (v : Nat) (st : HooksScan) :
    ((getA (processEntry st (mkAsst id { input_tokens := v })).seen_request_ids id).elim 0
        (fun d => d.input_tokens))
      = max ((getA st.seen_request_ids id).elim 0 (fun d => d.input_tokens)) v := by
  have hs := processEntry_seen st (mkAsst id { input_tokens := v })
  have hsnap : hookSnapshot (mkAsst id { input_tokens := v })
      = some (id, "unknown", { input_tokens := v }) := by
    simp [hookSnapshot, mkAsst, hid]
  rw [hsnap] at hs
  simp only [Option.elim_some] at hs
  rw [hs]
  unfold updateSeen
  simp only
  rw [getA_setA_self]
  cases h : getA st.seen_request_ids id <;> simp

theorem hooks_snaps_max (id : String) (hid : id ≠ "") (vals : List Nat) (st : HooksScan) :
    ((getA ((vals.map (fun v => mkAsst id { input_tokens := v })).foldl
        processEntry st).seen_request_ids id).elim 0 (fun d => d.input_tokens))
      = vals.foldl max ((getA st.seen_request_ids id).elim 0 (fun d => d.input_tokens)) := by
  induction vals generalizing st with
  | nil => simp
  | cons v rest ih =>
    simp only [List.map_cons, List.foldl_cons]
    rw [ih, hooks_snap_step id hid]

end AnalyzeHooks

namespace AnalyzeSession

open HookLab

theorem updateUsage_field_sum (f : Usage → Nat) (hf0 : f {} = 0)
    (hf1 : ∀ t r u, f (foldRequestUsage t r u).1 = (stepKey (f t) (f r) (f u)).1)
    (hf2 : ∀ t r u, f (foldRequestUsage t r u).2 = (stepKey (f t) (f r) (f u)).2)
    (t : Usage) (m : List (String × Usage)) (id : String) (u : Usage)
    (hinv : f t = sumA f m) :
    f (updateUsage (t, m) id u).1 = sumA f (updateUsage (t, m) id u).2 := by
  unfold updateUsage
  simp only
  have hg1 := hf1 t ((getA m id).getD {}) u
  have hg2 := hf2 t ((getA m id).getD {}) u
  have h1 := sumA_setA f m id (foldRequestUsage t ((getA m id).getD {}) u).2
  have h2 := stepKey_fst_add (f t) (f ((getA m id).getD {})) (f u)
  have h3 := stepKey_snd (f t) (f ((getA m id).getD {})) (f u)
  have hr : ((getA m id).map f).getD 0 = f ((getA m id).getD {}) := by
    cases hg : getA m id <;> simp [hf0]
  rw [hr] at h1
  omega

theorem scan_totals_sum (entries : List Entry) (st : SessionResult)
    (hinv : st.totals.input_tokens = sumA (fun x => x.input_tokens) st.by_request ∧
      st.totals.output_tokens = sumA (fun x => x.output_tokens) st.by_request ∧
      st.totals.cache_creation_input_tokens
        = sumA (fun x => x.cache_creation_input_tokens) st.by_request ∧
      st.totals.cache_read_input_tokens
        = sumA (fun x => x.cache_read_input_tokens) st.by_request) :
    (entries.foldl processEntry st).totals.input_tokens
        = sumA (fun x => x.input_tokens) (entries.foldl processEntry st).by_request ∧
    (entries.foldl processEntry st).totals.output_tokens
        = sumA (fun x => x.output_tokens) (entries.foldl processEntry st).by_request ∧
    (entries.foldl processEntry st).totals.cache_creation_input_tokens
        = sumA (fun x => x.cache_creation_input_tokens)
            (entries.foldl processEntry st).by_request ∧
    (entries.foldl processEntry st).totals.cache_read_input_tokens
        = sumA (fun x => x.cache_read_input_tokens)
            (entries.foldl processEntry st).by_request := by
  induction entries generalizing st with
  | nil => exact hinv
  | cons e rest ih =>
    simp only [List.foldl_cons]
    apply ih
    have hs := processEntry_usage_state st e
    cases hau : assistUsage e with
    | none =>
      rw [hau] at hs
      simp only [Option.elim_none, Prod.ext_iff] at hs
      rw [hs.1, hs.2]
      exact hinv
    | some p =>
      obtain ⟨id, u⟩ := p
      rw [hau] at hs
      simp only [Option.elim_some, Prod.ext_iff] at hs
      rw [hs.1, hs.2]
      exact ⟨updateUsage_field_sum (fun x => x.input_tokens) rfl
          (fun _ _ _ => rfl) (fun _ _ _ => rfl) st.totals st.by_request id u hinv.1,
        updateUsage_field_sum (fun x => x.output_tokens) rfl
          (fun _ _ _ => rfl) (fun _ _ _ => rfl) st.totals st.by_request id u hinv.2.1,
        updateUsage_field_sum (fun x => x.cache_creation_input_tokens) rfl
          (fun _ _ _ => rfl) (fun _ _ _ => rfl) st.totals st.by_request id u hinv.2.2.1,
        updateUsage_field_sum (fun x => x.cache_read_input_tokens) rfl
          (fun _ _ _ => rfl) (fun _ _ _ => rfl) st.totals st.by_request id u hinv.2.2.2⟩

end AnalyzeSession

namespace HookLab

theorem updateUsage_mapSeen (seen : List (String × AnalyzeHooks.ReqData))
    (t : Usage) (id model : String) (u : Usage) :
    (AnalyzeSession.updateUsage
        (t, seen.map (fun kv => (kv.1, projReq kv.2))) id u).2
      = (AnalyzeHooks.updateSeen seen id model u).map
          (fun kv => (kv.1, projReq kv.2)) := by
  unfold AnalyzeSession.updateUsage AnalyzeHooks.updateSeen
  simp only
  rw [← setA_map]
  congr 1
  rw [getA_map]
  cases h : getA seen id <;>
    simp [AnalyzeSession.foldRequestUsage, AnalyzeSession.stepKey_snd, projReq]

theorem scan_by_request_mapSeen (entries : List Entry)
    (s : AnalyzeSession.SessionResult) (h : AnalyzeHooks.HooksScan)
    (hcorr : s.by_request
      = h.seen_request_ids.map (fun kv => (kv.1, projReq kv.2)))
    (hids : ∀ e ∈ entries, e.type = some "assistant" →
      e.message.usage.isSome → e.requestId ≠ "") :
    (entries.foldl AnalyzeSession.processEntry s).by_request
      = ((entries.foldl AnalyzeHooks.processEntry h).seen_request_ids).map
          (fun kv => (kv.1, projReq kv.2)) := by
  induction entries generalizing s h with
  | nil => exact hcorr
  | cons e rest ih =>
    simp only [List.foldl_cons]
    apply ih
    · have hs := AnalyzeSession.processEntry_usage_state s e
      have hh := AnalyzeHooks.processEntry_seen h e
      cases hau : assistUsage e with
      | none =>
        rw [assistUsage_none_hookSnapshot e hau] at hh
        rw [hau] at hs
        simp only [Option.elim_none, Prod.ext_iff] at hs hh
        rw [hs.2, hh]
        exact hcorr
      | some p =>
        obtain ⟨id, u⟩ := p
        have hid : id ≠ "" := by
          obtain ⟨ha, hus, hr⟩ := assistUsage_eq_some e id u hau
          rw [hr]
          exact hids e (List.mem_cons_self e rest) ha (by rw [hus]; rfl)
        rw [assistUsage_some_hookSnapshot e id u hau hid] at hh
        rw [hau] at hs
        simp only [Option.elim_some, Prod.ext_iff] at hs hh
        rw [hs.2, hh, hcorr]
        exact updateUsage_mapSeen h.seen_request_ids s.totals id e.message.model u
    · exact fun e2 he2 => hids e2 (List.mem_cons_of_mem e he2)

theorem sumA_mapSeen (f : Usage → Nat) (seen : List (String × AnalyzeHooks.ReqData)) :
    sumA f (seen.map (fun kv => (kv.1, projReq kv.2)))
      = sumA (fun d => f (projReq d)) seen :=
  sumA_map projReq f seen

end HookLab

namespace AnalyzeHooks

open HookLab

theorem catFold_fields (seen : List (String × ReqData)) (acc : MainAgent × PromptHooks) :
    (seen.foldl catStep acc).1.api_calls
        = acc.1.api_calls + (seen.filter (fun kv => !(is_hook kv.2.model))).length ∧
    (seen.foldl catStep acc).1.input_tokens
        = acc.1.input_tokens + sumA (fun d => d.input_tokens)
            (seen.filter (fun kv => !(is_hook kv.2.model))) ∧
    (seen.foldl catStep acc).1.output_tokens
        = acc.1.output_tokens + sumA (fun d => d.output_tokens)
            (seen.filter (fun kv => !(is_hook kv.2.model))) ∧
    (seen.foldl catStep acc).1.cache_creation
        = acc.1.cache_creation + sumA (fun d => d.cache_creation)
            (seen.filter (fun kv => !(is_hook kv.2.model))) ∧
    (seen.foldl catStep acc).1.cache_read
        = acc.1.cache_read + sumA (fun d => d.cache_read)
            (seen.filter (fun kv => !(is_hook kv.2.model))) ∧
    (seen.foldl catStep acc).2.count
        = acc.2.count + (seen.filter (fun kv => is_hook kv.2.model)).length ∧
    (seen.foldl catStep acc).2.input_tokens
        = acc.2.input_tokens + sumA (fun d => d.input_tokens + d.cache_read)
            (seen.filter (fun kv => is_hook kv.2.model)) ∧
    (seen.foldl catStep acc).2.output_tokens
        = acc.2.output_tokens + sumA (fun d => d.output_tokens)
            (seen.filter (fun kv => is_hook kv.2.model)) := by
  induction seen generalizing acc with
  | nil => simp [sumA]
  | cons kv rest ih =>
    by_cases hm : is_hook kv.2.model
    · have hstep : catStep acc kv = (acc.1,
        { acc.2 with
          count := acc.2.count + 1
          input_tokens := acc.2.input_tokens + kv.2.input_tokens + kv.2.cache_read
          output_tokens := acc.2.output_tokens + kv.2.output_tokens }) := by
        simp [catStep, hm]
      simp only [List.foldl_cons, hstep]
      have := ih (acc.1,
        { acc.2 with
          count := acc.2.count + 1
          input_tokens := acc.2.input_tokens + kv.2.input_tokens + kv.2.cache_read
          output_tokens := acc.2.output_tokens + kv.2.output_tokens })
      simp only at this
      simp [hm, sumA, List.filter_cons]
      omega
    · have hstep : catStep acc kv = ({ acc.1 with
          api_calls := acc.1.api_calls + 1
          input_tokens := acc.1.input_tokens + kv.2.input_tokens
          output_tokens := acc.1.output_tokens + kv.2.output_tokens
          cache_creation := acc.1.cache_creation + kv.2.cache_creation
          cache_read := acc.1.cache_read + kv.2.cache_read
          models := setA acc.1.models kv.2.model
            ((getA acc.1.models kv.2.model).getD 0 + 1) }, acc.2) := by
        simp [catStep, hm]
      simp only [List.foldl_cons, hstep]
      have := ih ({ acc.1 with
          api_calls := acc.1.api_calls + 1
          input_tokens := acc.1.input_tokens + kv.2.input_tokens
          output_tokens := acc.1.output_tokens + kv.2.output_tokens
          cache_creation := acc.1.cache_creation + kv.2.cache_creation
          cache_read := acc.1.cache_read + kv.2.cache_read
          models := setA acc.1.models kv.2.model
            ((getA acc.1.models kv.2.model).getD 0 + 1) }, acc.2)
      simp only at this
      simp [hm, sumA, List.filter_cons]
      omega

end AnalyzeHooks

namespace HookLab

theorem usageLe_refl (u : Usage) : usageLe u u :=
  ⟨le_refl _, le_refl _, le_refl _, le_refl _⟩

end HookLab

namespace AnalyzeSession

open HookLab

theorem processEntry_totals_mono (st : SessionResult) (e : Entry) :
    usageLe st.totals (processEntry st e).totals := by
  have hs := processEntry_usage_state st e
  cases hau : assistUsage e with
  | none =>
    rw [hau] at hs
    simp only [Option.elim_none, Prod.ext_iff] at hs
    rw [hs.1]
    exact usageLe_refl _
  | some p =>
    obtain ⟨id, u⟩ := p
    rw [hau] at hs
    simp only [Option.elim_some, Prod.ext_iff] at hs
    rw [hs.1]
    unfold updateUsage foldRequestUsage
    simp only
    exact ⟨stepKey_fst_ge _ _ _, stepKey_fst_ge _ _ _,
      stepKey_fst_ge _ _ _, stepKey_fst_ge _ _ _⟩

theorem processEntry_by_request_mono (st : SessionResult) (e : Entry) (k : String) :
    usageLe ((getA st.by_request k).getD {})
      ((getA (processEntry st e).by_request k).getD {}) := by
  have hs := processEntry_usage_state st e
  cases hau : assistUsage e with
  | none =>
    rw [hau] at hs
    simp only [Option.elim_none, Prod.ext_iff] at hs
    rw [hs.2]
    exact usageLe_refl _
  | some p =>
    obtain ⟨id, u⟩ := p
    rw [hau] at hs
    simp only [Option.elim_some, Prod.ext_iff] at hs
    rw [hs.2]
    unfold updateUsage
    simp only
    by_cases hk : k = id
    · subst hk
      rw [getA_setA_self]
      unfold foldRequestUsage
      simp only [Option.getD]
      exact ⟨by simp [stepKey_snd], by simp [stepKey_snd],
        by simp [stepKey_snd], by simp [stepKey_snd]⟩
    · rw [getA_setA_ne _ _ hk]
      exact usageLe_refl _

end AnalyzeSession

namespace AnalyzeHooks

open HookLab

theorem processEntry_seen_mono (st : HooksScan) (e : Entry) (k : String) :
    usageLe ((getA st.seen_request_ids k).elim {} projReq)
      ((getA (processEntry st e).seen_request_ids k).elim {} projReq) := by
  have hh := processEntry_seen st e
  cases hsnap : hookSnapshot e with
  | none =>
    rw [hsnap] at hh
    simp only [Option.elim_none] at hh
    rw [hh]
    exact usageLe_refl _
  | some t3 =>
    obtain ⟨id, model, u⟩ := t3
    rw [hsnap] at hh
    simp only [Option.elim_some] at hh
    rw [hh]
    unfold updateSeen
    simp only
    by_cases hk : k = id
    · subst hk
      rw [getA_setA_self]
      cases hg : getA st.seen_request_ids k <;>
        simp [projReq, usageLe]
    · rw [getA_setA_ne _ _ hk]
      exact usageLe_refl _

end AnalyzeHooks

namespace HookLab

theorem readEntries_inputSnaps (id : String) (vals : List Nat) :
    readEntries (inputSnaps id vals)
      = vals.map (fun v => mkAsst id { input_tokens := v }) := by
  induction vals with
  | nil => simp [inputSnaps, readEntries]
  | cons v rest ih => simpa [inputSnaps, readEntries] using ih

end HookLab

open HookLab

/-- C1: for every callId, the reconciled per-counter value is the running
maximum over all usage snapshots seen for that id (shown here for the
`inputTokens` counter, in both analyzers); a snapshot not exceeding the
stored values is a no-op contributing zero delta; the snapshot sequence
[5, 5, 12, 8] reconciles to 12, not 8 and not the sum 30. -/
theorem c1_reconciled_is_running_max (id : String) (vals : List Nat)
    (hid : id ≠ "") :
    (((getA (AnalyzeSession.parse_session (inputSnaps id vals)).by_request
          id).getD {}).input_tokens = vals.foldl max 0)
    ∧ ((getA (AnalyzeHooks.parse_session (inputSnaps id vals)).seen_request_ids
          id).elim 0 (fun d => d.input_tokens) = vals.foldl max 0)
    ∧ (∀ totals req u : Usage, usageLe u req →
        AnalyzeSession.foldRequestUsage totals req u = (totals, req))
    ∧ (∀ (seen : List (String × AnalyzeHooks.ReqData)) (model : String)
          (u : Usage) (d : AnalyzeHooks.ReqData),
        getA seen id = some d → usageLe u (projReq d) →
        AnalyzeHooks.updateSeen seen id model u = seen)
    ∧ ((AnalyzeSession.parse_session
          (inputSnaps "req1" [5, 5, 12, 8])).totals.input_tokens = 12)
    ∧ (((getA (AnalyzeSession.parse_session
          (inputSnaps "req1" [5, 5, 12, 8])).by_request "req1").getD
            {}).input_tokens = 12)
    ∧ ((getA (AnalyzeHooks.parse_session
          (inputSnaps "req1" [5, 5, 12, 8])).seen_request_ids "req1").elim 0
            (fun d => d.input_tokens) = 12)
    ∧ (12 : Nat) ≠ 8 ∧ (12 : Nat) ≠ 5 + 5 + 12 + 8 := by
  refine ⟨?_, ?_, ?_, ?_, by decide, by decide, by decide, by decide, by decide⟩
  · have h := AnalyzeSession.session_snaps_max id vals
      { entry_count := (readEntries (inputSnaps id vals)).length }
    simp only [AnalyzeSession.parse_session, readEntries_inputSnaps] at *
    simpa [getA] using h
  · have h := AnalyzeHooks.hooks_snaps_max id hid vals {}
    simp only [AnalyzeHooks.parse_session, readEntries_inputSnaps] at *
    simpa [getA] using h
  · intro totals req u hle
    obtain ⟨h1, h2, h3, h4⟩ := hle
    have g1 : ¬ u.input_tokens > req.input_tokens := by omega
    have g2 : ¬ u.output_tokens > req.output_tokens := by omega
    have g3 : ¬ u.cache_creation_input_tokens > req.cache_creation_input_tokens := by
      omega
    have g4 : ¬ u.cache_read_input_tokens > req.cache_read_input_tokens := by omega
    simp [AnalyzeSession.foldRequestUsage, AnalyzeSession.stepKey, g1, g2, g3, g4]
  · intro seen model u d hget hle
    obtain ⟨h1, h2, h3, h4⟩ := hle
    unfold AnalyzeHooks.updateSeen
    simp only [hget, Option.getD_some]
    have hmax : ({ d with
        input_tokens := max d.input_tokens u.input_tokens
        output_tokens := max d.output_tokens u.output_tokens
        cache_creation := max d.cache_creation u.cache_creation_input_tokens
        cache_read := max d.cache_read u.cache_read_input_tokens }
          : AnalyzeHooks.ReqData) = d := by
      simp only [projReq] at h1 h2 h3 h4
      cases d
      simp_all [Nat.max_eq_left]
    rw [hmax]
    exact setA_getA_self _ _ _ hget

/-- C1 witness: the theorem applied at callId req1 with the snapshot
sequence [5, 5, 12, 8]. -/
theorem c1_reconciled_is_running_max_witness :
    ((getA (AnalyzeSession.parse_session
        (inputSnaps "req1" [5, 5, 12, 8])).by_request "req1").getD
          {}).input_tokens = [5, 5, 12, 8].foldl max 0 :=
  (c1_reconciled_is_running_max "req1" [5, 5, 12, 8] (by decide)).1

/-- C2: for every log whose assistant usage records all carry a non-empty
callId, the store-the-maximum-then-sum strategy of the hook analyzer and
the incremental delta-accumulation strategy of the session analyzer agree
per counter: summing each counter of the reconciled calls equals the
session running totals. -/
theorem c2_dedup_equals_delta (lines : List (Option Entry))
    (h : ∀ e ∈ readEntries lines, e.type = some "assistant" →
      e.message.usage.isSome → e.requestId ≠ "") :
    sumA (fun d => d.input_tokens)
        (AnalyzeHooks.parse_session lines).seen_request_ids
      = (AnalyzeSession.parse_session lines).totals.input_tokens
    ∧ sumA (fun d => d.output_tokens)
        (AnalyzeHooks.parse_session lines).seen_request_ids
      = (AnalyzeSession.parse_session lines).totals.output_tokens
    ∧ sumA (fun d => d.cache_creation)
        (AnalyzeHooks.parse_session lines).seen_request_ids
      = (AnalyzeSession.parse_session lines).totals.cache_creation_input_tokens
    ∧ sumA (fun d => d.cache_read)
        (AnalyzeHooks.parse_session lines).seen_request_ids
      = (AnalyzeSession.parse_session lines).totals.cache_read_input_tokens := by
  have hsum := AnalyzeSession.scan_totals_sum (readEntries lines)
    { entry_count := (readEntries lines).length } ⟨rfl, rfl, rfl, rfl⟩
  have hcorr := scan_by_request_mapSeen (readEntries lines)
    { entry_count := (readEntries lines).length } {} rfl h
  have hseen : (AnalyzeHooks.parse_session lines).seen_request_ids
      = ((readEntries lines).foldl AnalyzeHooks.processEntry
          {}).seen_request_ids := rfl
  have hsess : AnalyzeSession.parse_session lines
      = (readEntries lines).foldl AnalyzeSession.processEntry
          { entry_count := (readEntries lines).length } := rfl
  rw [hseen, hsess]
  refine ⟨?_, ?_, ?_, ?_⟩
  · rw [hsum.1, hcorr, sumA_mapSeen]
    rfl
  · rw [hsum.2.1, hcorr, sumA_mapSeen]
    rfl
  · rw [hsum.2.2.1, hcorr, sumA_mapSeen]
    rfl
  · rw [hsum.2.2.2, hcorr, sumA_mapSeen]
    rfl

/-- C2 witness: the two strategies agree on a concrete log with two
calls, one of them streamed twice. -/
theorem c2_dedup_equals_delta_witness :
    sumA (fun d => d.input_tokens)
        (AnalyzeHooks.parse_session c2demoLines).seen_request_ids
      = (AnalyzeSession.parse_session c2demoLines).totals.input_tokens :=
  (c2_dedup_equals_delta c2demoLines (by decide)).1

/-- C3 counterexample: two assistant records with empty requestId, each
reporting inputTokens 5.  The claim predicts each contributes its full
value (total 10, no max-fold); the session analyzer instead deduplicates
them under the empty-string key (total 5), and the hook analyzer records
nothing at all for them. -/
theorem c3_counterexample :
    (AnalyzeSession.parse_session
        [some (mkAsst "" { input_tokens := 5 }),
         some (mkAsst "" { input_tokens := 5 })]).totals.input_tokens = 5
    ∧ ¬ ((AnalyzeSession.parse_session
        [some (mkAsst "" { input_tokens := 5 }),
         some (mkAsst "" { input_tokens := 5 })]).totals.input_tokens = 5 + 5)
    ∧ (AnalyzeHooks.parse_session
        [some (mkAsst "" { input_tokens := 5 }),
         some (mkAsst "" { input_tokens := 5 })]).seen_request_ids = []
    ∧ (AnalyzeHooks.parse_session
        [some (mkAsst "" { input_tokens := 5 }),
         some (mkAsst "" { input_tokens := 5 })]).main_agent.input_tokens = 0
    ∧ (AnalyzeHooks.parse_session
        [some (mkAsst "" { input_tokens := 5 }),
         some (mkAsst "" { input_tokens := 5 })]).hooks_prompt.input_tokens
        = 0 := by
  refine ⟨by decide, by decide, by decide, by decide, by decide⟩

/-- C3 amended: in the session analyzer an empty callId is a map key
like any other, so empty-id snapshots are max-folded against each other
under the empty key and the aggregate totals receive the component-wise
maximum, not the sum; in the hook analyzer a snapshot with empty callId
is skipped entirely and contributes nothing. -/
theorem c3_amended_empty_id (u1 u2 : Usage) :
    (AnalyzeSession.parse_session
        [some (mkAsst "" u1), some (mkAsst "" u2)]).totals
      = { input_tokens := max u1.input_tokens u2.input_tokens,
          output_tokens := max u1.output_tokens u2.output_tokens,
          cache_creation_input_tokens :=
            max u1.cache_creation_input_tokens u2.cache_creation_input_tokens,
          cache_read_input_tokens :=
            max u1.cache_read_input_tokens u2.cache_read_input_tokens }
    ∧ (AnalyzeSession.parse_session
        [some (mkAsst "" u1), some (mkAsst "" u2)]).by_request
      = [("", { input_tokens := max u1.input_tokens u2.input_tokens,
                output_tokens := max u1.output_tokens u2.output_tokens,
                cache_creation_input_tokens :=
                  max u1.cache_creation_input_tokens u2.cache_creation_input_tokens,
                cache_read_input_tokens :=
                  max u1.cache_read_input_tokens u2.cache_read_input_tokens })]
    ∧ (AnalyzeHooks.parse_session
        [some (mkAsst "" u1), some (mkAsst "" u2)]).seen_request_ids = [] := by
  refine ⟨?_, ?_, ?_⟩
  · simp [AnalyzeSession.parse_session, readEntries, AnalyzeSession.processEntry,
      mkAsst, AnalyzeSession.updateUsage, AnalyzeSession.foldRequestUsage,
      AnalyzeSession.stepKey_zero, AnalyzeSession.stepKey_self, getA, setA]
  · simp [AnalyzeSession.parse_session, readEntries, AnalyzeSession.processEntry,
      mkAsst, AnalyzeSession.updateUsage, AnalyzeSession.foldRequestUsage,
      AnalyzeSession.stepKey_zero, AnalyzeSession.stepKey_self, getA, setA]
  · simp [AnalyzeHooks.parse_session, readEntries, AnalyzeHooks.processEntry, mkAsst]

/-- C4 counterexample: one reconciled lightweight (haiku) call with
inputTokens 1, outputTokens 2, cacheCreation 3, cacheRead 7.  The claim
predicts a lightweight input total of 1 (each counter summed separately,
none merged or dropped); the aggregator instead reports
input total 8 = 1 + 7 (cacheRead merged into input) and the whole
lightweight bucket carries no cache counters at all. -/
theorem c4_counterexample :
    (AnalyzeHooks.categorizeCalls
        [("r1", { model := "claude-3-haiku", input_tokens := 1,
                  output_tokens := 2, cache_creation := 3,
                  cache_read := 7 })]).2
      = { count := 1, input_tokens := 8, output_tokens := 2 }
    ∧ ¬ ((AnalyzeHooks.categorizeCalls
        [("r1", { model := "claude-3-haiku", input_tokens := 1,
                  output_tokens := 2, cache_creation := 3,
                  cache_read := 7 })]).2.input_tokens = 1) := by
  refine ⟨by decide, by decide⟩

/-- C4 amended: the aggregator counts calls per category; for calls
classified primary it sums each of the four counters separately, but for
calls classified lightweight it sums only output separately, adds
cacheRead into the input total, and drops cacheCreation entirely. -/
theorem c4_amended_category_sums (seen : List (String × AnalyzeHooks.ReqData)) :
    (AnalyzeHooks.categorizeCalls seen).1.api_calls
        = (seen.filter (fun kv => !(AnalyzeHooks.is_hook kv.2.model))).length
    ∧ (AnalyzeHooks.categorizeCalls seen).1.input_tokens
        = sumA (fun d => d.input_tokens)
            (seen.filter (fun kv => !(AnalyzeHooks.is_hook kv.2.model)))
    ∧ (AnalyzeHooks.categorizeCalls seen).1.output_tokens
        = sumA (fun d => d.output_tokens)
            (seen.filter (fun kv => !(AnalyzeHooks.is_hook kv.2.model)))
    ∧ (AnalyzeHooks.categorizeCalls seen).1.cache_creation
        = sumA (fun d => d.cache_creation)
            (seen.filter (fun kv => !(AnalyzeHooks.is_hook kv.2.model)))
    ∧ (AnalyzeHooks.categorizeCalls seen).1.cache_read
        = sumA (fun d => d.cache_read)
            (seen.filter (fun kv => !(AnalyzeHooks.is_hook kv.2.model)))
    ∧ (AnalyzeHooks.categorizeCalls seen).2.count
        = (seen.filter (fun kv => AnalyzeHooks.is_hook kv.2.model)).length
    ∧ (AnalyzeHooks.categorizeCalls seen).2.input_tokens
        = sumA (fun d => d.input_tokens + d.cache_read)
            (seen.filter (fun kv => AnalyzeHooks.is_hook kv.2.model))
    ∧ (AnalyzeHooks.categorizeCalls seen).2.output_tokens
        = sumA (fun d => d.output_tokens)
            (seen.filter (fun kv => AnalyzeHooks.is_hook kv.2.model)) := by
  simpa [AnalyzeHooks.categorizeCalls] using
    AnalyzeHooks.catFold_fields seen ({}, {})

/-- C5: each cost component equals the token count times the per-million
rate divided by 1,000,000, the total is the sum of the four components,
and 1,000,000 input plus 1,000,000 output tokens at the primary (opus)
tier cost 90.00. -/
theorem c5_cost_arithmetic :
    (∀ totals : Usage,
      (AnalyzeSession.calculate_cost totals).input_cost
          = totals.input_tokens * (15.0 : ℚ) / 1000000
        ∧ (AnalyzeSession.calculate_cost totals).output_cost
          = totals.output_tokens * (75.0 : ℚ) / 1000000
        ∧ (AnalyzeSession.calculate_cost totals).cache_read_cost
          = totals.cache_read_input_tokens * (1.50 : ℚ) / 1000000
        ∧ (AnalyzeSession.calculate_cost totals).cache_create_cost
          = totals.cache_creation_input_tokens * (18.75 : ℚ) / 1000000
        ∧ (AnalyzeSession.calculate_cost totals).total_cost
          = (AnalyzeSession.calculate_cost totals).input_cost
            + (AnalyzeSession.calculate_cost totals).output_cost
            + (AnalyzeSession.calculate_cost totals).cache_read_cost
            + (AnalyzeSession.calculate_cost totals).cache_create_cost)
    ∧ (∀ tokens : AnalyzeHooks.CostTokens,
        AnalyzeHooks.calculate_cost tokens "opus"
          = tokens.input_tokens * (15.0 : ℚ) / 1000000
            + tokens.output_tokens * (75.0 : ℚ) / 1000000
            + tokens.cache_read * (1.50 : ℚ) / 1000000
            + tokens.cache_creation * (18.75 : ℚ) / 1000000)
    ∧ (∀ tokens : AnalyzeHooks.CostTokens,
        AnalyzeHooks.calculate_cost tokens "sonnet"
          = tokens.input_tokens * (3.0 : ℚ) / 1000000
            + tokens.output_tokens * (15.0 : ℚ) / 1000000
            + tokens.cache_read * (0.30 : ℚ) / 1000000
            + tokens.cache_creation * (3.75 : ℚ) / 1000000)
    ∧ (∀ tokens : AnalyzeHooks.CostTokens,
        AnalyzeHooks.calculate_cost tokens "haiku"
          = tokens.input_tokens * (0.25 : ℚ) / 1000000
            + tokens.output_tokens * (1.25 : ℚ) / 1000000
            + tokens.cache_read * (0.025 : ℚ) / 1000000
            + tokens.cache_creation * (0.3125 : ℚ) / 1000000)
    ∧ AnalyzeHooks.calculate_cost
        { input_tokens := 1000000, output_tokens := 1000000 } "opus" = 90
    ∧ (AnalyzeSession.calculate_cost
        { input_tokens := 1000000, output_tokens := 1000000 }).total_cost
        = 90 := by
  refine ⟨fun totals => by
      refine ⟨?_, ?_, ?_, ?_, rfl⟩ <;>
        simp [AnalyzeSession.calculate_cost, mul_div_assoc], fun tokens => ?_,
    fun tokens => ?_, fun tokens => ?_, by norm_num [AnalyzeHooks.calculate_cost,
      AnalyzeHooks.pricing, AnalyzeHooks.opusRates],
    by norm_num [AnalyzeSession.calculate_cost]⟩
  · simp [AnalyzeHooks.calculate_cost, AnalyzeHooks.pricing, AnalyzeHooks.opusRates]
  · simp [AnalyzeHooks.calculate_cost, AnalyzeHooks.pricing, AnalyzeHooks.sonnetRates]
  · simp [AnalyzeHooks.calculate_cost, AnalyzeHooks.pricing, AnalyzeHooks.haikuRates]

/-- C6: a tier string with no entry in the pricing table never fails:
the cost computed is exactly the cost at the primary (opus) tier. -/
theorem c6_unknown_tier_fallback (tokens : AnalyzeHooks.CostTokens)
    (model : String) (h1 : model ≠ "opus") (h2 : model ≠ "sonnet")
    (h3 : model ≠ "haiku") :
    AnalyzeHooks.calculate_cost tokens model
      = AnalyzeHooks.calculate_cost tokens "opus" := by
  simp [AnalyzeHooks.calculate_cost, AnalyzeHooks.pricing, h1, h2, h3]

/-- C6 witness: the fallback applied to the unrecognized tier gpt-4o. -/
theorem c6_unknown_tier_fallback_witness :
    AnalyzeHooks.calculate_cost
        { input_tokens := 3, output_tokens := 1, cache_read := 4,
          cache_creation := 1 } "gpt-4o"
      = AnalyzeHooks.calculate_cost
        { input_tokens := 3, output_tokens := 1, cache_read := 4,
          cache_creation := 1 } "opus" :=
  c6_unknown_tier_fallback _ "gpt-4o" (by decide) (by decide) (by decide)

/-- C7: the classifier assigns lightweight exactly when the lowercased
model identifier contains the substring haiku, and primary otherwise;
claude-3-5-haiku-20241022 is lightweight, claude-3-opus-20240229 is
primary. -/
theorem c7_classifier_haiku_substring :
    (∀ model : String,
      AnalyzeHooks.classify model = AnalyzeHooks.Category.lightweight
        ↔ ∃ pre post, model.data.map Char.toLower
            = pre ++ "haiku".data ++ post)
    ∧ AnalyzeHooks.classify "claude-3-5-haiku-20241022"
        = AnalyzeHooks.Category.lightweight
    ∧ AnalyzeHooks.classify "claude-3-opus-20240229"
        = AnalyzeHooks.Category.primary := by
  refine ⟨fun model => ?_, by decide, by decide⟩
  have hb : AnalyzeHooks.classify model = AnalyzeHooks.Category.lightweight
      ↔ AnalyzeHooks.is_hook model = true := by
    unfold AnalyzeHooks.classify
    by_cases hm : AnalyzeHooks.is_hook model <;> simp [hm]
  rw [hb]
  exact containsStr_iff _ _

/-- C8: lines are parsed independently, a line failing to parse is
silently dropped and scanning continues, and a 4-line log whose second
line is invalid yields an entry count of 3 in both analyzers. -/
theorem c8_malformed_line_tolerance :
    (∀ lines : List (Option Entry), readEntries lines = lines.filterMap id)
    ∧ (∀ a b : List (Option Entry),
        readEntries (a ++ b) = readEntries a ++ readEntries b)
    ∧ (AnalyzeSession.parse_session
        [some (userEntry "hello"), none,
         some (mkAsst "r1" { input_tokens := 3 }),
         some (userEntry "bye")]).entry_count = 3
    ∧ (AnalyzeHooks.parse_session
        [some (userEntry "hello"), none,
         some (mkAsst "r1" { input_tokens := 3 }),
         some (userEntry "bye")]).entry_count = 3 :=
  ⟨readEntries_eq_filterMap, readEntries_append, by decide, by decide⟩

set_option maxRecDepth 4000 in
/-- C9 counterexample: a 150-character user message.  The claim predicts
a preview of up to the first 200 characters, hence all 150; the session
analyzer stores only the first 100 characters. -/
theorem c9_counterexample :
    (AnalyzeSession.parse_session
        [some (userEntry (String.mk (List.replicate 150 'a')))]).user_prompts
      = [String.mk (List.replicate 100 'a')]
    ∧ ¬ ((AnalyzeSession.parse_session
        [some (userEntry (String.mk (List.replicate 150 'a')))]).user_prompts
      = [(String.mk (List.replicate 150 'a')).take 200]) := by
  refine ⟨by decide, by decide⟩

/-- C9 amended: both analyzers keep previews of non-empty plain-string
user messages in arrival order, but the truncation limits differ — the
hook analyzer keeps up to the first 200 characters while the session
analyzer keeps up to the first 100. -/
theorem c9_amended_prompt_previews (lines : List (Option Entry)) :
    (AnalyzeSession.parse_session lines).user_prompts
        = (userTexts (readEntries lines)).map (fun c => c.take 100)
    ∧ (AnalyzeHooks.parse_session lines).user_prompts.map Prod.fst
        = (userTexts (readEntries lines)).map (fun c => c.take 200) := by
  constructor
  · simpa using AnalyzeSession.scan_user_prompts (readEntries lines)
      { entry_count := (readEntries lines).length }
  · simpa using AnalyzeHooks.scan_user_prompts_fst (readEntries lines) {}

/-- C10: processing any record leaves every stored per-call counter and
every session running-total counter at least as large as before, in both
analyzers; over the scan all counter state is non-decreasing (and, the
counters being naturals starting from zero, never negative). -/
theorem c10_counters_monotone (s : AnalyzeSession.SessionResult)
    (h : AnalyzeHooks.HooksScan) (e : Entry) (k : String) :
    usageLe s.totals (AnalyzeSession.processEntry s e).totals
    ∧ usageLe ((getA s.by_request k).getD {})
        ((getA (AnalyzeSession.processEntry s e).by_request k).getD {})
    ∧ usageLe ((getA h.seen_request_ids k).elim {} projReq)
        ((getA (AnalyzeHooks.processEntry h e).seen_request_ids k).elim {}
          projReq) :=
  ⟨AnalyzeSession.processEntry_totals_mono s e,
   AnalyzeSession.processEntry_by_request_mono s e k,
   AnalyzeHooks.processEntry_seen_mono h e k⟩
